import Mathlib

/-!
Verification development for the workers-accountable discipline tracker.

The definitions below are a shallow embedding of the TypeScript sources:
  * `src/types/enums.ts`               — discipline kinds, weekday enums, kind classification
  * `src/models/discipline.model.ts`   — weekly record data model and week-boundary helpers
  * `src/services/discipline.service.ts` — completion-rate, streak and save-progress logic
  * `src/services/notification.service.ts` — incomplete-task scan and reminder fan-out
  * `src/services/scheduler.service.ts`  — the fixed-job scheduler state machine

JavaScript machine details are made explicit: `Math.round` on the non-negative
rationals that occur here is round-half-up and is modelled with exact integer
arithmetic, calendar instants are modelled as integer local day numbers plus a
millisecond-of-day offset, and the mutable `Map`/array state of the services is
modelled with association lists threaded explicitly.
-/

/-- Spiritual disciplines tracked weekly (`SpiritualDiscipline` in src/types/enums.ts). -/
inductive SpiritualDiscipline
  | prayer
  | bible_study
  | fasting
  | evangelism
deriving DecidableEq, Repr

/-- Days of the week (`DayOfWeek` in src/types/enums.ts), in declaration order. -/
inductive DayOfWeek
  | monday
  | tuesday
  | wednesday
  | thursday
  | friday
  | saturday
  | sunday
deriving DecidableEq, Repr

/-- `DaysOfWeek = Object.values(DayOfWeek)`: Monday-first enumeration of the weekdays. -/
def DaysOfWeek : List DayOfWeek :=
  [.monday, .tuesday, .wednesday, .thursday, .friday, .saturday, .sunday]

/-- Disciplines required on all 7 days (`DailyDisciplines` in src/types/enums.ts). -/
def DailyDisciplines : List SpiritualDiscipline := [.prayer, .bible_study]

/-- Disciplines required at least once per week (`WeeklyDisciplines` in src/types/enums.ts). -/
def WeeklyDisciplines : List SpiritualDiscipline := [.fasting, .evangelism]

/-- `DailyDisciplines.includes(k)` as used by the services. -/
def isDaily (k : SpiritualDiscipline) : Bool := DailyDisciplines.contains k

/-- `WeeklyDisciplines.includes(k)` as used by the services. -/
def isWeekly (k : SpiritualDiscipline) : Bool := WeeklyDisciplines.contains k

/-- One discipline's per-weekday completion flags
(`IDisciplineProgress` in src/models/discipline.model.ts). -/
structure DisciplineProgress where
  discipline : SpiritualDiscipline
  monday : Bool
  tuesday : Bool
  wednesday : Bool
  thursday : Bool
  friday : Bool
  saturday : Bool
  sunday : Bool
deriving DecidableEq, Repr

/-- Dynamic field access `disc[day]` on a progress entry. -/
def dayFlag (disc : DisciplineProgress) : DayOfWeek → Bool
  | .monday => disc.monday
  | .tuesday => disc.tuesday
  | .wednesday => disc.wednesday
  | .thursday => disc.thursday
  | .friday => disc.friday
  | .saturday => disc.saturday
  | .sunday => disc.sunday

/-- The inner loop of `calculateCompletionRate` for a daily discipline:
`for (const day of DaysOfWeek) if (disc[day] === true) requiredCompleted++`. -/
def countCompletedDays (disc : DisciplineProgress) : Nat :=
  (DaysOfWeek.filter (fun day => dayFlag disc day)).length

/-- The inner loop of `calculateCompletionRate` for a weekly discipline:
`completed` becomes true when some weekday flag is true. -/
def anyDayCompleted (disc : DisciplineProgress) : Bool :=
  DaysOfWeek.any (fun day => dayFlag disc day)

/-- JavaScript `Math.round (num / den * 100)`-style rounding, specialised to the
non-negative rationals `num / den` that occur in the services.  `Math.round x`
is `⌊x + 1/2⌋` for non-negative `x`, i.e. round-half-up; on `num / den` this is
`(2 * num + den) / (2 * den)` in exact integer arithmetic.  (The double
computations in the source, with numerators that are multiples of 25 over
denominators 16 or at most 14, are exact, so no floating-point error occurs.) -/
def mathRound (num den : Nat) : Nat := (2 * num + den) / (2 * den)

/-- Result record of `calculateCompletionRate` in src/services/discipline.service.ts. -/
structure CompletionRateResult where
  requiredCompleted : Nat
  totalRequired : Nat
  rate : Nat
deriving DecidableEq, Repr

/-- `calculateCompletionRate` (src/services/discipline.service.ts, lines 169-206):
daily disciplines contribute one point per completed day, weekly disciplines
contribute one point when any day is completed; the denominator is the fixed
constant 16 and the rate is `Math.round(requiredCompleted / 16 * 100)`. -/
def calculateCompletionRate (disciplines : List DisciplineProgress) : CompletionRateResult :=
  let totalRequired : Nat := 16
  let requiredCompleted := disciplines.foldl
    (fun acc disc =>
      if isDaily disc.discipline then acc + countCompletedDays disc
      else if isWeekly disc.discipline then
        (if anyDayCompleted disc then acc + 1 else acc)
      else acc) 0
  let rate := if totalRequired > 0 then mathRound (requiredCompleted * 100) totalRequired else 0
  { requiredCompleted := requiredCompleted, totalRequired := totalRequired, rate := rate }

/-- Requirement points a single record entry earns, as the spec describes them:
a daily kind earns one point per weekday flagged true, a weekly kind earns one
point when at least one weekday is flagged true. -/
def entryPoints (disc : DisciplineProgress) : Nat :=
  if isDaily disc.discipline then countCompletedDays disc
  else if isWeekly disc.discipline then (if anyDayCompleted disc then 1 else 0)
  else 0

/-- The four configured discipline kinds, in configuration order. -/
def allKinds : List SpiritualDiscipline := [.prayer, .bible_study, .fasting, .evangelism]

/-- Points the record awards to one configured kind: the points of the (unique)
entry for that kind, or 0 when the record has no entry for it. -/
def kindPoints (disciplines : List DisciplineProgress) (k : SpiritualDiscipline) : Nat :=
  match disciplines.find? (fun d => d.discipline == k) with
  | some d => entryPoints d
  | none => 0

/-- The scenario record of the spec: Prayer on Monday and Tuesday, Bible Study
nowhere, Fasting nowhere, Evangelism on Sunday. -/
def scenarioDisciplines : List DisciplineProgress :=
  [⟨.prayer, true, true, false, false, false, false, false⟩,
   ⟨.bible_study, false, false, false, false, false, false, false⟩,
   ⟨.fasting, false, false, false, false, false, false, false⟩,
   ⟨.evangelism, false, false, false, false, false, false, true⟩]

/-- A local-time instant, as the period calculator observes it: `days` is the
local day number (day 0 is a Thursday, matching the Unix epoch) and `msOfDay`
is the time of day in milliseconds.  `Date` mutation in the source
(`setDate`, `setHours`) is modelled by producing a new instant. -/
structure Instant where
  days : Int
  msOfDay : Nat
deriving DecidableEq, Repr

/-- JavaScript `Date.prototype.getDay`: weekday index with Sunday = 0 ..
Saturday = 6.  Day 0 (1970-01-01) is a Thursday, index 4. -/
def jsGetDay (t : Instant) : Int := (t.days + 4) % 7

/-- `getWeekStartDate` (src/models/discipline.model.ts, lines 43-50): move the
date by `-day + (day === 0 ? -6 : 1)` days — i.e. by `-6` days on a Sunday and
by `1 - day` days otherwise — and zero the time of day (`setHours(0,0,0,0)`).
JavaScript `setDate` rolls over month boundaries, which the flat day-number
model captures directly. -/
def getWeekStartDate (t : Instant) : Instant :=
  let day := jsGetDay t
  let offset : Int := if day = 0 then -6 else 1 - day
  { days := t.days + offset, msOfDay := 0 }

/-- The `Map<string, boolean>` of `calculateStreak`, as an association list in
which later `set`s shadow earlier entries.  ISO date keys
(`toISOString().split('T')[0]`) identify calendar days, so the map is keyed by
local day numbers (`Int`). -/
abbrev DateCompletionMap := List (Int × Bool)

/-- `Map.prototype.get`: first (most recently set) binding of the key. -/
def mapGet : DateCompletionMap → Int → Option Bool
  | [], _ => none
  | (k, v) :: m, d => if k = d then some v else mapGet m d

/-- `Map.prototype.set`: the new binding shadows any earlier one under `mapGet`. -/
def mapSet (m : DateCompletionMap) (k : Int) (v : Bool) : DateCompletionMap :=
  (k, v) :: m

theorem mapGet_mem {m : DateCompletionMap} {k : Int} {b : Bool}
    (h : mapGet m k = some b) : (k, b) ∈ m := by
  induction m with
  | nil => simp [mapGet] at h
  | cons p m ih =>
    obtain ⟨k', v'⟩ := p
    by_cases hk : k' = k
    · subst hk
      simp [mapGet] at h
      simp [h]
    · simp [mapGet, hk] at h
      exact List.mem_cons_of_mem _ (ih h)

theorem length_filter_le_of_imp {α : Type} {p q : α → Bool} (l : List α)
    (himp : ∀ x, p x = true → q x = true) :
    (l.filter p).length ≤ (l.filter q).length := by
  induction l with
  | nil => simp
  | cons a l ih =>
    by_cases hp : p a = true
    · simp [List.filter, hp, himp a hp]
      omega
    · have hp' : p a = false := by simp at hp; exact hp
      by_cases hq : q a = true
      · simp [List.filter, hp', hq]
        omega
      · have hq' : q a = false := by simp at hq; exact hq
        simp [List.filter, hp', hq']
        exact ih

theorem length_filter_lt_of_mem {α : Type} {p q : α → Bool} {l : List α} {a : α}
    (ha : a ∈ l) (hq : q a = true) (hp : p a = false)
    (himp : ∀ x, p x = true → q x = true) :
    (l.filter p).length < (l.filter q).length := by
  induction l with
  | nil => simp at ha
  | cons b l ih =>
    rcases List.mem_cons.mp ha with hb | hb
    · subst hb
      simp [List.filter, hp, hq]
      have := length_filter_le_of_imp l himp
      omega
    · by_cases hpb : p b = true
      · simp [List.filter, hpb, himp b hpb]
        exact ih hb
      · have hpb' : p b = false := by simp at hpb; exact hpb
        by_cases hqb : q b = true
        · simp [List.filter, hpb', hqb]
          have := ih hb
          omega
        · have hqb' : q b = false := by simp at hqb; exact hqb
          simp [List.filter, hpb', hqb']
          exact ih hb

theorem filter_measure_lt {m : DateCompletionMap} {d : Int}
    (h : mapGet m d = some true) :
    (m.filter (fun p => decide (p.1 ≤ d - 1))).length
      < (m.filter (fun p => decide (p.1 ≤ d))).length := by
  apply length_filter_lt_of_mem (a := (d, true)) (mapGet_mem h)
  · simp
  · simp
  · intro x hx
    rcases x with ⟨k, b⟩
    simp at hx ⊢
    omega

/-- The backward walk of `calculateStreak` (src/services/discipline.service.ts,
lines 265-280) on every date other than today: continue (incrementing the
streak) exactly while the map holds an explicit `true` for the date; an absent
or explicitly false entry breaks the loop.  Termination mirrors the real
argument: each continuing step consumes one of the finitely many map entries at
or below the current date. -/
def walkStreak (m : DateCompletionMap) (d : Int) : Nat :=
  if h : mapGet m d = some true then walkStreak m (d - 1) + 1 else 0
termination_by (m.filter (fun p => decide (p.1 ≤ d))).length
decreasing_by
  exact filter_measure_lt h

theorem walkStreak_pos {m : DateCompletionMap} {d : Int}
    (h : mapGet m d = some true) : walkStreak m d = walkStreak m (d - 1) + 1 := by
  rw [walkStreak]
  simp [h]

theorem walkStreak_stop {m : DateCompletionMap} {d : Int}
    (h : mapGet m d ≠ some true) : walkStreak m d = 0 := by
  rw [walkStreak]
  simp [h]

/-- The first iteration of the streak loop, at `dateKey === today`: an absent
entry for today does not break the streak (the walk skips to yesterday), an
explicit `false` breaks it with streak 0, and a `true` counts today and
continues from yesterday.  Later iterations never satisfy the today test, so
they follow `walkStreak`. -/
def streakWalkFromToday (m : DateCompletionMap) (today : Int) : Nat :=
  match mapGet m today with
  | some true => walkStreak m (today - 1) + 1
  | some false => 0
  | none => walkStreak m (today - 1)

/-- `dayNames` array of `calculateStreak` and `getCurrentDay`, indexed by the
JavaScript weekday index (Sunday = 0). -/
def dayNamesByJsIndex : List DayOfWeek :=
  [.sunday, .monday, .tuesday, .wednesday, .thursday, .friday, .saturday]

/-- One subject's weekly record, as `calculateStreak` consumes it:
`weekStartDate` as a local day number plus the per-discipline flags. -/
structure WeeklyRecord where
  weekStartDate : Int
  disciplines : List DisciplineProgress
deriving DecidableEq, Repr

/-- `getDay()` of a bare day number, as a list index (always < 7). -/
def jsDayIndexOf (d : Int) : Nat := ((d + 4) % 7).toNat

/-- The map-building phase of `calculateStreak` (src/services/discipline.service.ts,
lines 233-259): for each record and each of its seven dates (Monday + i), skip
dates after today (the comparison against the 23:59:59.999 `today` instant is a
day-number comparison for midnight-aligned dates), mark the date completed when
any discipline's flag for that weekday is true. -/
def buildDateMap (weeks : List WeeklyRecord) (today : Int) : DateCompletionMap :=
  weeks.foldl (fun acc week =>
    (List.range 7).foldl (fun acc i =>
      let currentDate := week.weekStartDate + (i : Int)
      if currentDate > today then acc
      else
        let dayOfWeek := dayNamesByJsIndex.getD (jsDayIndexOf currentDate) .sunday
        let dayCompleted := week.disciplines.any (fun disc => dayFlag disc dayOfWeek)
        mapSet acc currentDate dayCompleted) acc) []

/-- `calculateStreak` (src/services/discipline.service.ts, lines 211-283):
return 0 for an empty history, otherwise build the date→completed map and run
the backward walk from today. -/
def calculateStreak (weeks : List WeeklyRecord) (today : Int) : Nat :=
  if weeks.length = 0 then 0
  else streakWalkFromToday (buildDateMap weeks today) today

/-- A concrete history: the week starting Monday, day -3 (1969-12-29), with
prayer completed on its Sunday (day 3); evaluated at day 4 (Monday,
1970-01-05), the current week has no record, so day 4 has no map entry while
day 3 maps to true. -/
def streakWitnessWeeks : List WeeklyRecord :=
  [⟨-3, [⟨.prayer, false, false, false, false, false, false, true⟩]⟩]

/-- JavaScript `new Date().getDay()` values: 0 = Sunday .. 6 = Saturday. -/
abbrev JsDay := Fin 7

/-- `getDaysUpToToday` (src/services/notification.service.ts, lines 63-78):
Monday-first day order, `todayIndex = today === 0 ? 6 : today - 1`, and
`slice(0, todayIndex + 1)`. -/
def getDaysUpToToday (today : JsDay) : List DayOfWeek :=
  let dayOrder : List DayOfWeek :=
    [.monday, .tuesday, .wednesday, .thursday, .friday, .saturday, .sunday]
  let todayIndex := if today.val = 0 then 6 else today.val - 1
  dayOrder.take (todayIndex + 1)

/-- String names of the weekdays, as stored in `missingDays`. -/
def dayName : DayOfWeek → String
  | .monday => "monday"
  | .tuesday => "tuesday"
  | .wednesday => "wednesday"
  | .thursday => "thursday"
  | .friday => "friday"
  | .saturday => "saturday"
  | .sunday => "sunday"

/-- `IIncompleteTask` (src/services/notification.service.ts): a discipline plus
the list of missing day names, or the sentinel `"week"` for weekly kinds. -/
structure IncompleteTask where
  discipline : SpiritualDiscipline
  missingDays : List String
deriving DecidableEq, Repr

/-- One iteration of the `for (const disc of disciplines)` loop of
`checkIncompleteTasks` (src/services/notification.service.ts, lines 101-136):
a daily discipline contributes an entry listing the days up to today whose flag
is not true (when any); a weekly discipline contributes the sentinel `"week"`
entry exactly when no day at all is flagged true and the days to check reach
Sunday. -/
def checkIncompleteEntry (daysToCheck : List DayOfWeek) (disc : DisciplineProgress) :
    List IncompleteTask :=
  if isDaily disc.discipline then
    let missingDays := (daysToCheck.filter (fun day => !dayFlag disc day)).map dayName
    if missingDays.length > 0 then
      [{ discipline := disc.discipline, missingDays := missingDays }]
    else []
  else if isWeekly disc.discipline then
    let hasCompleted := anyDayCompleted disc
    if !hasCompleted && daysToCheck.contains DayOfWeek.sunday then
      [{ discipline := disc.discipline, missingDays := ["week"] }]
    else []
  else []

/-- The per-subject store of weekly records for the current week, reachable by
subject id (`WeeklyDiscipline.findOne({userId, weekStartDate})`). -/
abbrev RecordStore := List (String × List DisciplineProgress)

/-- `findOne`: the first stored record for the given subject, if any. -/
def findRecord : RecordStore → String → Option (List DisciplineProgress)
  | [], _ => none
  | (uid, ds) :: store, userId => if uid = userId then some ds else findRecord store userId

/-- `create`-style insertion of a record for a subject. -/
def insertRecord (store : RecordStore) (userId : String) (ds : List DisciplineProgress) :
    RecordStore :=
  (userId, ds) :: store

/-- The default disciplines literal of `checkIncompleteTasks`
(src/services/notification.service.ts, lines 94-99): the four configured kinds
with every weekday flag false. -/
def defaultDisciplines : List DisciplineProgress :=
  [⟨.prayer, false, false, false, false, false, false, false⟩,
   ⟨.bible_study, false, false, false, false, false, false, false⟩,
   ⟨.fasting, false, false, false, false, false, false, false⟩,
   ⟨.evangelism, false, false, false, false, false, false, false⟩]

/-- The loop body of `checkIncompleteTasks` applied to a full disciplines list. -/
def incompleteForDisciplines (disciplines : List DisciplineProgress) (today : JsDay) :
    List IncompleteTask :=
  disciplines.flatMap (checkIncompleteEntry (getDaysUpToToday today))

/-- `checkIncompleteTasks` (src/services/notification.service.ts, lines 83-139):
read the subject's current-week record (the only store operation is this read),
fall back to the all-false default disciplines when no record exists, and scan
each discipline for missing days. -/
def checkIncompleteTasks (store : RecordStore) (userId : String) (today : JsDay) :
    List IncompleteTask :=
  let disciplines := match findRecord store userId with
    | some ds => ds
    | none => defaultDisciplines
  incompleteForDisciplines disciplines today

/-- `UserRole` (src/types/enums.ts). -/
inductive UserRole
  | worker
  | executive
deriving DecidableEq, Repr

/-- The user fields `getWorkersWithIncompleteTasks` selects. -/
structure UserDoc where
  userId : String
  fullName : String
  email : String
  role : UserRole
  isActive : Bool
deriving DecidableEq, Repr

/-- `NotificationSchedule` (src/models/notification.model.ts). -/
inductive NotificationSchedule
  | morning
  | afternoon
  | evening
deriving DecidableEq, Repr

/-- `NotificationType` (src/models/notification.model.ts). -/
inductive NotificationType
  | task_reminder
  | general
deriving DecidableEq, Repr

/-- `IUserNotificationSummary` (src/services/notification.service.ts). -/
structure UserNotificationSummary where
  userId : String
  fullName : String
  email : String
  incompleteTasks : List IncompleteTask
  completionRate : Nat
deriving DecidableEq, Repr

/-- The daily-discipline completion rate computed inside
`getWorkersWithIncompleteTasks` (src/services/notification.service.ts, lines
157-181): completed daily checkboxes among the days up to today over
`daysToCheck.length * DailyDisciplines.length`, rounded; 0 when the subject has
no record. -/
def workerCompletionRate (store : RecordStore) (userId : String) (today : JsDay) : Nat :=
  let daysToCheck := getDaysUpToToday today
  let totalPossible := daysToCheck.length * DailyDisciplines.length
  let completedCount := match findRecord store userId with
    | some ds => ds.foldl (fun acc disc =>
        if DailyDisciplines.contains disc.discipline then
          acc + (daysToCheck.filter (fun day => dayFlag disc day)).length
        else acc) 0
    | none => 0
  if totalPossible > 0 then mathRound (completedCount * 100) totalPossible else 0

/-- The summary `getWorkersWithIncompleteTasks` pushes for one worker. -/
def summaryOf (store : RecordStore) (today : JsDay) (worker : UserDoc) :
    UserNotificationSummary :=
  { userId := worker.userId
    fullName := worker.fullName
    email := worker.email
    incompleteTasks := checkIncompleteTasks store worker.userId today
    completionRate := workerCompletionRate store worker.userId today }

/-- `getWorkersWithIncompleteTasks` (src/services/notification.service.ts, lines
144-194): query the active workers (`User.find({role: WORKER, isActive: true})`),
compute each one's incomplete tasks, and push a summary exactly for those with
at least one incomplete entry. -/
def getWorkersWithIncompleteTasks (users : List UserDoc) (store : RecordStore)
    (today : JsDay) : List UserNotificationSummary :=
  let workers := users.filter (fun u => u.role == UserRole.worker && u.isActive)
  workers.foldl (fun summaries worker =>
    let incompleteTasks := checkIncompleteTasks store worker.userId today
    if incompleteTasks.length > 0 then summaries ++ [summaryOf store today worker]
    else summaries) []

/-- `formatDisciplineName` (src/services/notification.service.ts, lines 260-268). -/
def formatDisciplineName : SpiritualDiscipline → String
  | .prayer => "Prayer"
  | .bible_study => "Bible Study"
  | .fasting => "Fasting"
  | .evangelism => "Evangelism"

/-- One element of the `disciplinesList` join inside `createTaskReminders`. -/
def describeTask (task : IncompleteTask) : String :=
  let disciplineName := formatDisciplineName task.discipline
  match task.missingDays with
  | "week" :: _ => disciplineName ++ " (not completed this week)"
  | ds =>
      disciplineName ++ " (" ++ toString ds.length ++ " day"
        ++ (if ds.length > 1 then "s" else "") ++ " pending)"

/-- The reminder message `createTaskReminders` assembles for one summary. -/
def reminderMessage (summary : UserNotificationSummary) : String :=
  let disciplinesList :=
    String.intercalate ", " (summary.incompleteTasks.map describeTask)
  "Hi " ++ (summary.fullName.splitOn " ").headD "" ++ ", you have incomplete tasks: "
    ++ disciplinesList ++ ". Your current completion rate is "
    ++ toString summary.completionRate ++ "%."

/-- A persisted notification document, as `createNotification` writes it. -/
structure NotificationDoc where
  userId : String
  title : String
  message : String
  type : NotificationType
  scheduleTime : Option NotificationSchedule
  incompleteTasks : List IncompleteTask
deriving DecidableEq, Repr

/-- The notification `createTaskReminders` creates for one summary. -/
def reminderNotification (scheduleTime : NotificationSchedule)
    (summary : UserNotificationSummary) : NotificationDoc :=
  { userId := summary.userId
    title := "Task Reminder"
    message := reminderMessage summary
    type := NotificationType.task_reminder
    scheduleTime := some scheduleTime
    incompleteTasks := summary.incompleteTasks }

/-- `createTaskReminders` (src/services/notification.service.ts, lines 220-255):
one notification per summary returned by `getWorkersWithIncompleteTasks`, and
the count of notifications created (the counter is incremented once per
summary).  The created notifications and the returned count are modelled as a
pair. -/
def createTaskReminders (users : List UserDoc) (store : RecordStore) (today : JsDay)
    (scheduleTime : NotificationSchedule) : List NotificationDoc × Nat :=
  let summaries := getWorkersWithIncompleteTasks users store today
  let notifications := summaries.map (reminderNotification scheduleTime)
  (notifications, notifications.length)

/-- The notification `createTaskReminders` would create for one worker: the
slot, the worker's full incomplete-task snapshot, and the reminder message. -/
def workerReminder (store : RecordStore) (today : JsDay)
    (scheduleTime : NotificationSchedule) (worker : UserDoc) : NotificationDoc :=
  reminderNotification scheduleTime (summaryOf store today worker)

/-- The merge step of `saveProgress` (src/services/discipline.service.ts, lines
126-142) for one incoming entry: `findIndex` the first existing entry of the
same discipline kind and replace it in place, else push at the end.  The object
spread `{...existing, ...progress}` overwrites every field of the existing
entry, because validated payload entries carry all eight fields
(src/validations/discipline.validation.ts defaults every day flag), so the
replacement is the incoming entry itself. -/
def mergeProgress (disciplines : List DisciplineProgress) (progress : DisciplineProgress) :
    List DisciplineProgress :=
  match disciplines with
  | [] => [progress]
  | d :: rest =>
      if d.discipline = progress.discipline then progress :: rest
      else d :: mergeProgress rest progress

/-- The `for (const progress of data.disciplines)` loop of `saveProgress`:
merge each incoming entry into the record in payload order. -/
def saveProgressMerge (existing : List DisciplineProgress)
    (payload : List DisciplineProgress) : List DisciplineProgress :=
  payload.foldl mergeProgress existing

/-- One field of a cron expression: `*` or a numeral. -/
inductive CronField
  | star
  | num (n : Nat)
deriving DecidableEq, Repr

/-- A five-field cron expression, in structured form (minute, hour, day of
month, month, day of week). -/
abbrev CronExpr := List CronField

/-- Range check for one cron field. -/
def cronFieldOk : CronField → Nat → Nat → Bool
  | .star, _, _ => true
  | .num n, lo, hi => decide (lo ≤ n) && decide (n ≤ hi)

/-- `cron.validate`: five fields, each `*` or a numeral in range (minute 0-59,
hour 0-23, day of month 1-31, month 1-12, day of week 0-7). -/
def cronValidate (expr : CronExpr) : Bool :=
  match expr with
  | [minute, hour, dom, mon, dow] =>
      cronFieldOk minute 0 59 && cronFieldOk hour 0 23 && cronFieldOk dom 1 31
        && cronFieldOk mon 1 12 && cronFieldOk dow 0 7
  | _ => false

/-- `"0 7 * * *"`: the morning-reminder schedule (7:00 AM daily). -/
def morningCron : CronExpr := [.num 0, .num 7, .star, .star, .star]

/-- `"0 13 * * *"`: the afternoon-reminder schedule (1:00 PM daily). -/
def afternoonCron : CronExpr := [.num 0, .num 13, .star, .star, .star]

/-- `"0 21 * * *"`: the evening-reminder schedule (9:00 PM daily). -/
def eveningCron : CronExpr := [.num 0, .num 21, .star, .star, .star]

/-- `"0 2 * * *"`: the cleanup schedule (2:00 AM daily). -/
def cleanupCron : CronExpr := [.num 0, .num 2, .star, .star, .star]

/-- A `node-cron` task object: its schedule and its internal started/stopped
flag (`task.stop()` flips the flag without touching the registry). -/
structure CronTask where
  expr : CronExpr
  running : Bool
deriving DecidableEq, Repr

/-- The scheduler's `Map<string, ScheduledTask>` registry. -/
abbrev JobMap := List (String × CronTask)

/-- `Map.prototype.get` on the registry. -/
def jobGet : JobMap → String → Option CronTask
  | [], _ => none
  | (k, v) :: m, name => if k = name then some v else jobGet m name

/-- `Map.prototype.set` on the registry: replace the binding of an existing
key in place, else append a new binding. -/
def jobSet : JobMap → String → CronTask → JobMap
  | [], name, task => [(name, task)]
  | (k, v) :: m, name, task =>
      if k = name then (k, task) :: m else (k, v) :: jobSet m name task

/-- `SchedulerService` instance state (src/services/scheduler.service.ts):
the job registry and the `isInitialized` flag. -/
structure SchedulerState where
  jobs : JobMap
  isInitialized : Bool
deriving DecidableEq, Repr

/-- The module-level singleton starts with an empty registry, uninitialized. -/
def initialState : SchedulerState := { jobs := [], isInitialized := false }

/-- `scheduleJob` (src/services/scheduler.service.ts, lines 100-112): an invalid
cron expression is rejected (the job is not registered); otherwise
`cron.schedule` starts a task and the registry maps the name to it. -/
def scheduleJob (s : SchedulerState) (name : String) (expr : CronExpr) : SchedulerState :=
  if cronValidate expr then
    { s with jobs := jobSet s.jobs name { expr := expr, running := true } }
  else s

/-- `initialize` (src/services/scheduler.service.ts, lines 20-95): a logged
no-op when already initialized; otherwise register the three reminder jobs and
the cleanup job and set `isInitialized`.  (The name avoids a reserved word;
the source method is `initialize`.) -/
def initializeScheduler (s : SchedulerState) : SchedulerState :=
  if s.isInitialized then s
  else
    let s1 := scheduleJob s "morning-reminder" morningCron
    let s2 := scheduleJob s1 "afternoon-reminder" afternoonCron
    let s3 := scheduleJob s2 "evening-reminder" eveningCron
    let s4 := scheduleJob s3 "cleanup-notifications" cleanupCron
    { s4 with isInitialized := true }

/-- `stopJob` (src/services/scheduler.service.ts, lines 117-123): look the job
up; when present, `job.stop()` flips the task's internal flag — the registry
entry itself is never removed; an unknown name is a no-op. -/
def stopJob (s : SchedulerState) (name : String) : SchedulerState :=
  match jobGet s.jobs name with
  | some job => { s with jobs := jobSet s.jobs name { job with running := false } }
  | none => s

/-- `stopAll` (src/services/scheduler.service.ts, lines 128-136): stop every
job, clear the registry, and reset `isInitialized`. -/
def stopAll (_ : SchedulerState) : SchedulerState :=
  { jobs := [], isInitialized := false }

/-- `getStatus` (src/services/scheduler.service.ts, lines 141-149): one entry
per registry binding, always reported with `running: true` (a presence check,
not a liveness check — node-cron exposes no running state). -/
def getStatus (s : SchedulerState) : List (String × Bool) :=
  s.jobs.map (fun p => (p.1, true))

/-- The four job names `initialize` registers, in registration order. -/
def fourJobNames : List String :=
  ["morning-reminder", "afternoon-reminder", "evening-reminder", "cleanup-notifications"]

theorem requiredCompleted_foldl (ds : List DisciplineProgress) (n : Nat) :
    ds.foldl
      (fun acc disc =>
        if isDaily disc.discipline then acc + countCompletedDays disc
        else if isWeekly disc.discipline then
          (if anyDayCompleted disc then acc + 1 else acc)
        else acc) n = n + (ds.map entryPoints).sum := by
  induction ds generalizing n with
  | nil => simp
  | cons d ds ih =>
    simp only [List.foldl_cons, List.map_cons, List.sum_cons, ih, entryPoints]
    split
    · omega
    · split
      · split <;> omega
      · omega

theorem kindPoints_nil (k : SpiritualDiscipline) : kindPoints [] k = 0 := rfl

theorem kindPoints_cons (d : DisciplineProgress) (ds : List DisciplineProgress)
    (k : SpiritualDiscipline) :
    kindPoints (d :: ds) k = if d.discipline = k then entryPoints d else kindPoints ds k := by
  by_cases h : d.discipline = k
  · simp [kindPoints, List.find?, h]
  · have hb : (d.discipline == k) = false := by simp [h]
    simp [kindPoints, List.find?, hb, h]

theorem kindPoints_eq_zero_of_not_mem {ds : List DisciplineProgress}
    {k : SpiritualDiscipline} (h : k ∉ ds.map (fun d => d.discipline)) :
    kindPoints ds k = 0 := by
  induction ds with
  | nil => rfl
  | cons d ds ih =>
    simp only [List.map_cons, List.mem_cons] at h
    push_neg at h
    rw [kindPoints_cons, if_neg]
    · exact ih h.2
    · exact fun hk => h.1 hk.symm

theorem sum_kindPoints (ds : List DisciplineProgress)
    (h : (ds.map (fun d => d.discipline)).Nodup) :
    (allKinds.map (kindPoints ds)).sum = (ds.map entryPoints).sum := by
  induction ds with
  | nil => rfl
  | cons d ds ih =>
    simp only [List.map_cons, List.nodup_cons] at h
    have hz : kindPoints ds d.discipline = 0 := kindPoints_eq_zero_of_not_mem h.1
    have ihs := ih h.2
    simp only [allKinds, List.map_cons, List.map_nil, List.sum_cons, List.sum_nil,
      kindPoints_cons] at ihs ⊢
    cases hk : d.discipline <;> rw [hk] at hz <;> simp <;> omega

/-- C1: for a record with at most one entry per configured kind,
`calculateCompletionRate` awards one point per completed weekday to each daily
kind, one point to each weekly kind with at least one completed weekday
(a kind with no entry counts 0), keeps the denominator fixed at 16, and reports
the round-half-up percentage; in the spec's scenario the count is 3 and the
rate 19. -/
theorem calculateCompletionRate_correct (ds : List DisciplineProgress)
    (h : (ds.map (fun d => d.discipline)).Nodup) :
    (calculateCompletionRate ds).requiredCompleted = (allKinds.map (kindPoints ds)).sum
    ∧ (calculateCompletionRate ds).totalRequired = 16
    ∧ (calculateCompletionRate ds).rate
        = mathRound ((allKinds.map (kindPoints ds)).sum * 100) 16
    ∧ calculateCompletionRate scenarioDisciplines =
        { requiredCompleted := 3, totalRequired := 16, rate := 19 } := by
  have hrc : (calculateCompletionRate ds).requiredCompleted = (ds.map entryPoints).sum := by
    simp [calculateCompletionRate, requiredCompleted_foldl]
  have hs := sum_kindPoints ds h
  refine ⟨by rw [hrc, hs], rfl, ?_, by decide⟩
  have : (calculateCompletionRate ds).rate
      = mathRound ((calculateCompletionRate ds).requiredCompleted * 100) 16 := by
    simp [calculateCompletionRate]
  rw [this, hrc, hs]

theorem calculateCompletionRate_correct_witness :
    (scenarioDisciplines.map (fun d => d.discipline)).Nodup
    ∧ calculateCompletionRate scenarioDisciplines =
        { requiredCompleted := 3, totalRequired := 16, rate := 19 } :=
  ⟨by decide, (calculateCompletionRate_correct scenarioDisciplines (by decide)).2.2.2⟩

/-- C5: `getWeekStartDate` always lands on a Monday at local midnight, is
idempotent, and applies exactly the offset `-6` days on a Sunday and
`1 - weekday` days otherwise. -/
theorem getWeekStartDate_correct (t : Instant) :
    jsGetDay (getWeekStartDate t) = 1
    ∧ getWeekStartDate (getWeekStartDate t) = getWeekStartDate t
    ∧ (getWeekStartDate t).days
        = t.days + (if jsGetDay t = 0 then -6 else 1 - jsGetDay t)
    ∧ (getWeekStartDate t).msOfDay = 0 := by
  obtain ⟨days, ms⟩ := t
  refine ⟨?_, ?_, rfl, rfl⟩
  · simp only [getWeekStartDate, jsGetDay]
    split <;> omega
  · simp only [getWeekStartDate, jsGetDay, Instant.mk.injEq, and_true]
    split_ifs <;> omega

/-- C3: when the date→completed map has no entry for today but maps yesterday
to true, `calculateStreak` does not return 0: it skips today and returns the
walk counted back from yesterday; at every date the walk continues (adding one)
exactly on an explicit true entry and stops on an absent or false entry. -/
theorem calculateStreak_skips_absent_today (weeks : List WeeklyRecord) (today : Int)
    (h0 : mapGet (buildDateMap weeks today) today = none)
    (h1 : mapGet (buildDateMap weeks today) (today - 1) = some true) :
    calculateStreak weeks today = walkStreak (buildDateMap weeks today) (today - 1)
    ∧ walkStreak (buildDateMap weeks today) (today - 1)
        = walkStreak (buildDateMap weeks today) (today - 1 - 1) + 1
    ∧ 0 < calculateStreak weeks today
    ∧ (∀ d, mapGet (buildDateMap weeks today) d = some true →
        walkStreak (buildDateMap weeks today) d
          = walkStreak (buildDateMap weeks today) (d - 1) + 1)
    ∧ (∀ d, mapGet (buildDateMap weeks today) d ≠ some true →
        walkStreak (buildDateMap weeks today) d = 0) := by
  have hne : ¬weeks.length = 0 := by
    intro he
    rw [List.length_eq_zero] at he
    subst he
    simp [buildDateMap, mapGet] at h1
  have hcalc : calculateStreak weeks today
      = streakWalkFromToday (buildDateMap weeks today) today := by
    unfold calculateStreak
    rw [if_neg hne]
  have hw : streakWalkFromToday (buildDateMap weeks today) today
      = walkStreak (buildDateMap weeks today) (today - 1) := by
    unfold streakWalkFromToday
    rw [h0]
  refine ⟨by rw [hcalc, hw], walkStreak_pos h1, ?_,
    fun d hd => walkStreak_pos hd, fun d hd => walkStreak_stop hd⟩
  rw [hcalc, hw, walkStreak_pos h1]
  omega

theorem calculateStreak_skips_absent_today_witness :
    mapGet (buildDateMap streakWitnessWeeks 4) 4 = none
    ∧ mapGet (buildDateMap streakWitnessWeeks 4) 3 = some true
    ∧ 0 < calculateStreak streakWitnessWeeks 4 :=
  ⟨by decide, by decide,
    (calculateStreak_skips_absent_today streakWitnessWeeks 4 (by decide) (by decide)).2.2.1⟩

theorem streakWalkFromToday_none {m : DateCompletionMap} {today : Int}
    (h : mapGet m today = none) :
    streakWalkFromToday m today = walkStreak m (today - 1) := by
  unfold streakWalkFromToday
  rw [h]

theorem streakWalkFromToday_false {m : DateCompletionMap} {today : Int}
    (h : mapGet m today = some false) : streakWalkFromToday m today = 0 := by
  unfold streakWalkFromToday
  rw [h]

theorem streakWalkFromToday_true {m : DateCompletionMap} {today : Int}
    (h : mapGet m today = some true) :
    streakWalkFromToday m today = walkStreak m (today - 1) + 1 := by
  unfold streakWalkFromToday
  rw [h]

theorem walkStreak_le_aux (m : DateCompletionMap) (e : Int)
    (hm : ∀ p ∈ m, e ≤ p.1) :
    ∀ (n : Nat) (d : Int), (d + 1 - e).toNat ≤ n → walkStreak m d ≤ (d + 1 - e).toNat := by
  intro n
  induction n with
  | zero =>
    intro d hd
    by_cases h : mapGet m d = some true
    · have hed : e ≤ d := by simpa using hm _ (mapGet_mem h)
      omega
    · rw [walkStreak_stop h]
      exact Nat.zero_le _
  | succ n ih =>
    intro d hd
    by_cases h : mapGet m d = some true
    · have hed : e ≤ d := by simpa using hm _ (mapGet_mem h)
      rw [walkStreak_pos h]
      have h2 : walkStreak m (d - 1) ≤ (d - 1 + 1 - e).toNat := ih (d - 1) (by omega)
      omega
    · rw [walkStreak_stop h]
      exact Nat.zero_le _

/-- C4: `calculateStreak` is total (the backward walk is well-founded because
each continuing step consumes a map entry) and bounded: an empty history
returns 0, and whenever every map entry's date is at least `e` — in particular
for `e` the earliest date covered by a stored record — the walk from `d` counts
at most the days from `e` to `d`, and the streak from today is bounded the same
way, even when every mapped day is completed. -/
theorem calculateStreak_terminating_bound :
    (∀ today : Int, calculateStreak [] today = 0)
    ∧ (∀ (m : DateCompletionMap) (d e : Int),
        (∀ p ∈ m, e ≤ p.1) → walkStreak m d ≤ (d + 1 - e).toNat)
    ∧ (∀ (weeks : List WeeklyRecord) (today e : Int),
        (∀ p ∈ buildDateMap weeks today, e ≤ p.1) →
        calculateStreak weeks today ≤ (today + 1 - e).toNat) := by
  have hwalk : ∀ (m : DateCompletionMap) (d e : Int),
      (∀ p ∈ m, e ≤ p.1) → walkStreak m d ≤ (d + 1 - e).toNat :=
    fun m d e hm => walkStreak_le_aux m e hm (d + 1 - e).toNat d le_rfl
  refine ⟨fun today => rfl, hwalk, ?_⟩
  intro weeks today e hm
  by_cases hz : weeks.length = 0
  · unfold calculateStreak
    rw [if_pos hz]
    exact Nat.zero_le _
  · have hc : calculateStreak weeks today
        = streakWalkFromToday (buildDateMap weeks today) today := by
      unfold calculateStreak
      rw [if_neg hz]
    rw [hc]
    cases h : mapGet (buildDateMap weeks today) today with
    | none =>
        rw [streakWalkFromToday_none h]
        have := hwalk (buildDateMap weeks today) (today - 1) e hm
        omega
    | some b =>
        cases b with
        | false =>
            rw [streakWalkFromToday_false h]
            exact Nat.zero_le _
        | true =>
            rw [streakWalkFromToday_true h]
            have hed : e ≤ today := by simpa using hm _ (mapGet_mem h)
            have := hwalk (buildDateMap weeks today) (today - 1) e hm
            omega

theorem calculateStreak_terminating_bound_witness :
    calculateStreak [] 0 = 0
    ∧ walkStreak [((0 : Int), true)] 0 ≤ ((0 : Int) + 1 - 0).toNat
    ∧ calculateStreak streakWitnessWeeks 4 ≤ ((4 : Int) + 1 - (-3)).toNat :=
  ⟨calculateStreak_terminating_bound.1 0,
    calculateStreak_terminating_bound.2.1 [(0, true)] 0 0 (by decide),
    calculateStreak_terminating_bound.2.2 streakWitnessWeeks 4 (-3) (by decide)⟩

theorem sunday_contains_daysUpToToday :
    ∀ t : JsDay, (getDaysUpToToday t).contains DayOfWeek.sunday = decide (t.val = 0) := by
  decide

theorem checkIncompleteEntry_discipline (dc : List DayOfWeek) (disc : DisciplineProgress) :
    ∀ task ∈ checkIncompleteEntry dc disc, task.discipline = disc.discipline := by
  intro task htask
  unfold checkIncompleteEntry at htask
  split_ifs at htask <;> simp at htask <;> simp [htask]

theorem filter_incomplete_flatMap (dc : List DayOfWeek) (ds : List DisciplineProgress)
    (k : SpiritualDiscipline) :
    (ds.flatMap (checkIncompleteEntry dc)).filter (fun t => t.discipline == k)
      = (ds.filter (fun e => e.discipline == k)).flatMap (checkIncompleteEntry dc) := by
  induction ds with
  | nil => rfl
  | cons e ds ih =>
    by_cases he : (e.discipline == k) = true
    · have h1 : (checkIncompleteEntry dc e).filter (fun t => t.discipline == k)
          = checkIncompleteEntry dc e := by
        rw [List.filter_eq_self]
        intro t ht
        simp [checkIncompleteEntry_discipline dc e t ht]
        simpa using he
      rw [List.flatMap_cons, List.filter_append, h1, ih, List.filter_cons, if_pos he,
        List.flatMap_cons]
    · have h1 : (checkIncompleteEntry dc e).filter (fun t => t.discipline == k) = [] := by
        rw [List.filter_eq_nil_iff]
        intro t ht
        simp [checkIncompleteEntry_discipline dc e t ht]
        simpa using he
      rw [List.flatMap_cons, List.filter_append, h1, ih, List.filter_cons, if_neg he,
        List.nil_append]

/-- C2: a weekly-kind entry with all seven weekday flags false yields no
incomplete entry when evaluated Monday through Saturday (JavaScript weekday
index 1-6) and exactly the single sentinel `["week"]` entry when evaluated on
Sunday (index 0); a weekly-kind entry with at least one weekday flagged true
never yields an incomplete entry. -/
theorem checkIncompleteTasks_weekly (store : RecordStore) (userId : String)
    (ds : List DisciplineProgress) (d : DisciplineProgress) (today : JsDay)
    (hrec : findRecord store userId = some ds)
    (hk : isWeekly d.discipline = true)
    (hd : ds.filter (fun e => e.discipline == d.discipline) = [d]) :
    (anyDayCompleted d = false →
      (checkIncompleteTasks store userId today).filter
          (fun t => t.discipline == d.discipline)
        = if today.val = 0 then [⟨d.discipline, ["week"]⟩] else [])
    ∧ (anyDayCompleted d = true →
      (checkIncompleteTasks store userId today).filter
          (fun t => t.discipline == d.discipline) = []) := by
  have hck : checkIncompleteTasks store userId today = incompleteForDisciplines ds today := by
    unfold checkIncompleteTasks
    rw [hrec]
  have hfil : (incompleteForDisciplines ds today).filter
      (fun t => t.discipline == d.discipline)
      = checkIncompleteEntry (getDaysUpToToday today) d := by
    unfold incompleteForDisciplines
    rw [filter_incomplete_flatMap, hd, List.flatMap_cons]
    simp
  have hnd : isDaily d.discipline = false := by
    revert hk
    cases d.discipline <;> decide
  constructor
  · intro hall
    rw [hck, hfil]
    simp only [checkIncompleteEntry, hnd, hk, hall, sunday_contains_daysUpToToday,
      Bool.false_eq_true, if_false, if_true, Bool.not_false, Bool.true_and]
    by_cases hz : today.val = 0
    · simp [hz]
    · simp [hz]
  · intro hsome
    rw [hck, hfil]
    simp [checkIncompleteEntry, hnd, hk, hsome]

theorem checkIncompleteTasks_weekly_witness :
    (checkIncompleteTasks [("u1", defaultDisciplines)] "u1" 3).filter
        (fun t => t.discipline == SpiritualDiscipline.fasting) = []
    ∧ (checkIncompleteTasks [("u1", defaultDisciplines)] "u1" 0).filter
        (fun t => t.discipline == SpiritualDiscipline.fasting)
      = [⟨SpiritualDiscipline.fasting, ["week"]⟩] := by
  have h3 := checkIncompleteTasks_weekly [("u1", defaultDisciplines)] "u1" defaultDisciplines
    ⟨.fasting, false, false, false, false, false, false, false⟩ 3
    (by decide) (by decide) (by decide)
  have h0 := checkIncompleteTasks_weekly [("u1", defaultDisciplines)] "u1" defaultDisciplines
    ⟨.fasting, false, false, false, false, false, false, false⟩ 0
    (by decide) (by decide) (by decide)
  constructor
  · have h := h3.1 (by decide)
    rw [if_neg (by decide)] at h
    exact h
  · have h := h0.1 (by decide)
    rw [if_pos (by decide)] at h
    exact h

/-- C9: for a subject with no stored record for the current week,
`checkIncompleteTasks` returns exactly what it would return for a stored record
whose four configured kinds all have every weekday flag false; the function is
a pure read of the store (the source performs only a `findOne`, so nothing is
created and nothing thrown). -/
theorem checkIncompleteTasks_default (store : RecordStore) (userId : String) (today : JsDay)
    (h : findRecord store userId = none) :
    checkIncompleteTasks store userId today
      = checkIncompleteTasks
          (insertRecord store userId
            [⟨.prayer, false, false, false, false, false, false, false⟩,
             ⟨.bible_study, false, false, false, false, false, false, false⟩,
             ⟨.fasting, false, false, false, false, false, false, false⟩,
             ⟨.evangelism, false, false, false, false, false, false, false⟩])
          userId today
    ∧ checkIncompleteTasks store userId today
        = incompleteForDisciplines defaultDisciplines today := by
  have h2 : checkIncompleteTasks store userId today
      = incompleteForDisciplines defaultDisciplines today := by
    unfold checkIncompleteTasks
    rw [h]
  have h3 : findRecord (insertRecord store userId defaultDisciplines) userId
      = some defaultDisciplines := by
    unfold insertRecord findRecord
    rw [if_pos rfl]
  refine ⟨?_, h2⟩
  rw [h2]
  show incompleteForDisciplines defaultDisciplines today
    = checkIncompleteTasks (insertRecord store userId defaultDisciplines) userId today
  unfold checkIncompleteTasks
  rw [h3]

theorem checkIncompleteTasks_default_witness :
    findRecord [] "u1" = none
    ∧ checkIncompleteTasks [] "u1" 2 = incompleteForDisciplines defaultDisciplines 2 :=
  ⟨rfl, (checkIncompleteTasks_default [] "u1" 2 rfl).2⟩

theorem mergeProgress_kinds (ds : List DisciplineProgress) (p : DisciplineProgress) :
    (mergeProgress ds p).map (fun e => e.discipline)
      = if p.discipline ∈ ds.map (fun e => e.discipline) then
          ds.map (fun e => e.discipline)
        else ds.map (fun e => e.discipline) ++ [p.discipline] := by
  induction ds with
  | nil => simp [mergeProgress]
  | cons d ds ih =>
    by_cases h : d.discipline = p.discipline
    · simp [mergeProgress, h]
    · simp only [mergeProgress, if_neg h, List.map_cons, ih]
      by_cases hm : p.discipline ∈ ds.map (fun e => e.discipline)
      · rw [if_pos hm, if_pos]
        simp [List.mem_cons, hm]
      · rw [if_neg hm, if_neg]
        · simp
        · simp only [List.mem_cons]
          push_neg
          exact ⟨fun hh => h hh.symm, hm⟩

theorem mergeProgress_nodup {ds : List DisciplineProgress} {p : DisciplineProgress}
    (h : (ds.map (fun e => e.discipline)).Nodup) :
    ((mergeProgress ds p).map (fun e => e.discipline)).Nodup := by
  rw [mergeProgress_kinds]
  by_cases hm : p.discipline ∈ ds.map (fun e => e.discipline)
  · rw [if_pos hm]
    exact h
  · rw [if_neg hm]
    simp [List.nodup_append, h, hm]

theorem mergeProgress_filter_ne (ds : List DisciplineProgress) (p : DisciplineProgress)
    (k : SpiritualDiscipline) (hk : (p.discipline == k) = false) :
    (mergeProgress ds p).filter (fun e => e.discipline == k)
      = ds.filter (fun e => e.discipline == k) := by
  induction ds with
  | nil => simp [mergeProgress, List.filter_cons, hk]
  | cons d ds ih =>
    by_cases h : d.discipline = p.discipline
    · have hdk : (d.discipline == k) = false := by rw [h]; exact hk
      simp [mergeProgress, h, List.filter_cons, hk, hdk]
    · simp only [mergeProgress, if_neg h, List.filter_cons]
      by_cases hdk : (d.discipline == k) = true
      · simp [hdk, ih]
      · simp only [hdk, if_false, Bool.false_eq_true, ih]

theorem saveProgressMerge_nodup (existing payload : List DisciplineProgress)
    (h : (existing.map (fun e => e.discipline)).Nodup) :
    ((saveProgressMerge existing payload).map (fun e => e.discipline)).Nodup := by
  induction payload generalizing existing with
  | nil => exact h
  | cons p ps ih => exact ih (mergeProgress existing p) (mergeProgress_nodup h)

theorem saveProgressMerge_frame (existing payload : List DisciplineProgress)
    (k : SpiritualDiscipline) (hk : k ∉ payload.map (fun e => e.discipline)) :
    (saveProgressMerge existing payload).filter (fun e => e.discipline == k)
      = existing.filter (fun e => e.discipline == k) := by
  induction payload generalizing existing with
  | nil => rfl
  | cons p ps ih =>
    simp only [List.map_cons, List.mem_cons] at hk
    push_neg at hk
    have h1 : (saveProgressMerge (mergeProgress existing p) ps).filter
        (fun e => e.discipline == k)
        = (mergeProgress existing p).filter (fun e => e.discipline == k) :=
      ih (mergeProgress existing p) hk.2
    have h2 : (p.discipline == k) = false := by
      simp
      exact fun hh => hk.1 hh.symm
    exact h1.trans (mergeProgress_filter_ne existing p k h2)

/-- C6: the `saveProgress` merge leaves every discipline kind not named in the
payload untouched (same entries, same positions), and — starting from a record
with at most one entry per kind — never produces two entries for the same kind:
a kind already present is updated in place, a kind not present is appended. -/
theorem saveProgress_merge_correct (existing payload : List DisciplineProgress)
    (h : (existing.map (fun e => e.discipline)).Nodup) :
    ((saveProgressMerge existing payload).map (fun e => e.discipline)).Nodup
    ∧ ∀ k, k ∉ payload.map (fun e => e.discipline) →
        (saveProgressMerge existing payload).filter (fun e => e.discipline == k)
          = existing.filter (fun e => e.discipline == k) :=
  ⟨saveProgressMerge_nodup existing payload h,
    fun k hk => saveProgressMerge_frame existing payload k hk⟩

theorem saveProgress_merge_correct_witness :
    (defaultDisciplines.map (fun e => e.discipline)).Nodup
    ∧ ((saveProgressMerge defaultDisciplines
          [⟨.prayer, true, true, true, true, true, true, true⟩]).map
        (fun e => e.discipline)).Nodup
    ∧ (saveProgressMerge defaultDisciplines
          [⟨.prayer, true, true, true, true, true, true, true⟩]).filter
        (fun e => e.discipline == SpiritualDiscipline.fasting)
      = defaultDisciplines.filter (fun e => e.discipline == SpiritualDiscipline.fasting) :=
  ⟨by decide,
    (saveProgress_merge_correct defaultDisciplines
      [⟨.prayer, true, true, true, true, true, true, true⟩] (by decide)).1,
    (saveProgress_merge_correct defaultDisciplines
      [⟨.prayer, true, true, true, true, true, true, true⟩] (by decide)).2
      SpiritualDiscipline.fasting (by decide)⟩

theorem workers_foldl_eq (store : RecordStore) (today : JsDay) (l : List UserDoc) :
    ∀ init : List UserNotificationSummary,
      l.foldl (fun summaries worker =>
          let incompleteTasks := checkIncompleteTasks store worker.userId today
          if incompleteTasks.length > 0 then summaries ++ [summaryOf store today worker]
          else summaries) init
        = init ++ (l.filter (fun u =>
            decide ((checkIncompleteTasks store u.userId today).length > 0))).map
            (summaryOf store today) := by
  induction l with
  | nil =>
    intro init
    simp
  | cons u l ih =>
    intro init
    simp only [List.foldl_cons, List.filter_cons]
    by_cases h : (checkIncompleteTasks store u.userId today).length > 0
    · rw [if_pos h, ih, if_pos (by simpa using h), List.map_cons]
      simp
    · rw [if_neg h, ih, if_neg (by simpa using h)]

/-- C7: `createTaskReminders` creates exactly one task-reminder notification —
carrying the schedule slot and the subject's full incomplete-task snapshot —
for each active worker whose incomplete-task list is non-empty, none for any
other user, and returns the number of notifications created. -/
theorem createTaskReminders_correct (users : List UserDoc) (store : RecordStore)
    (today : JsDay) (scheduleTime : NotificationSchedule) :
    (createTaskReminders users store today scheduleTime).1
      = ((users.filter (fun u => u.role == UserRole.worker && u.isActive)).filter
          (fun u => decide ((checkIncompleteTasks store u.userId today).length > 0))).map
          (workerReminder store today scheduleTime)
    ∧ (createTaskReminders users store today scheduleTime).2
      = ((users.filter (fun u => u.role == UserRole.worker && u.isActive)).filter
          (fun u => decide ((checkIncompleteTasks store u.userId today).length > 0))).length
    ∧ (∀ n ∈ (createTaskReminders users store today scheduleTime).1,
        n.scheduleTime = some scheduleTime ∧ n.type = NotificationType.task_reminder)
    ∧ (∀ u, (workerReminder store today scheduleTime u).userId = u.userId
        ∧ (workerReminder store today scheduleTime u).incompleteTasks
            = checkIncompleteTasks store u.userId today) := by
  have hg : getWorkersWithIncompleteTasks users store today
      = ((users.filter (fun u => u.role == UserRole.worker && u.isActive)).filter
          (fun u => decide ((checkIncompleteTasks store u.userId today).length > 0))).map
          (summaryOf store today) := by
    unfold getWorkersWithIncompleteTasks
    rw [workers_foldl_eq]
    simp
  have h1 : (createTaskReminders users store today scheduleTime).1
      = ((users.filter (fun u => u.role == UserRole.worker && u.isActive)).filter
          (fun u => decide ((checkIncompleteTasks store u.userId today).length > 0))).map
          (workerReminder store today scheduleTime) := by
    show (getWorkersWithIncompleteTasks users store today).map
        (reminderNotification scheduleTime) = _
    rw [hg, List.map_map]
    rfl
  refine ⟨h1, ?_, ?_, fun u => ⟨rfl, rfl⟩⟩
  · show (createTaskReminders users store today scheduleTime).1.length = _
    rw [h1, List.length_map]
  · intro n hn
    rw [h1] at hn
    obtain ⟨u, _, rfl⟩ := List.mem_map.mp hn
    exact ⟨rfl, rfl⟩

theorem createTaskReminders_correct_witness :
    (workerReminder [] 2 NotificationSchedule.morning
        ⟨"w1", "Ann Lee", "ann@example.com", UserRole.worker, true⟩).scheduleTime
      = some NotificationSchedule.morning
    ∧ (workerReminder [] 2 NotificationSchedule.morning
        ⟨"w1", "Ann Lee", "ann@example.com", UserRole.worker, true⟩).type
      = NotificationType.task_reminder := by
  have h := createTaskReminders_correct
    [⟨"w1", "Ann Lee", "ann@example.com", UserRole.worker, true⟩]
    [] 2 NotificationSchedule.morning
  refine h.2.2.1 _ ?_
  rw [h.1]
  exact List.mem_map.mpr
    ⟨⟨"w1", "Ann Lee", "ann@example.com", UserRole.worker, true⟩, by decide, rfl⟩

theorem initializeScheduler_of_initialized {s : SchedulerState}
    (h : s.isInitialized = true) : initializeScheduler s = s := by
  unfold initializeScheduler
  rw [if_pos h]

theorem initializeScheduler_initialized (s : SchedulerState) :
    (initializeScheduler s).isInitialized = true := by
  unfold initializeScheduler
  by_cases h : s.isInitialized = true
  · rw [if_pos h]
    exact h
  · rw [if_neg h]

/-- C8: the scheduler state machine: a second `initialize` while already
running changes nothing (jobs are registered exactly once), `stopAll` empties
the registry and returns to the uninitialized state, and a subsequent
`initialize` registers the four fixed-time jobs again. -/
theorem scheduler_state_machine (s : SchedulerState) :
    initializeScheduler (initializeScheduler s) = initializeScheduler s
    ∧ stopAll s = initialState
    ∧ (initializeScheduler (stopAll s)).jobs.map Prod.fst = fourJobNames
    ∧ (initializeScheduler (stopAll s)).isInitialized = true := by
  refine ⟨initializeScheduler_of_initialized (initializeScheduler_initialized s), rfl,
    ?_, initializeScheduler_initialized _⟩
  show (initializeScheduler initialState).jobs.map Prod.fst = fourJobNames
  decide

theorem jobSet_keys_of_get_some {m : JobMap} {name : String} {v v' : CronTask}
    (h : jobGet m name = some v') :
    (jobSet m name v).map Prod.fst = m.map Prod.fst := by
  induction m with
  | nil => simp [jobGet] at h
  | cons p m ih =>
    obtain ⟨k, t⟩ := p
    by_cases hk : k = name
    · simp [jobSet, hk]
    · simp only [jobGet, if_neg hk] at h
      simp [jobSet, hk, ih h]

theorem stopJob_keys (s : SchedulerState) (name : String) :
    (stopJob s name).jobs.map Prod.fst = s.jobs.map Prod.fst := by
  unfold stopJob
  cases h : jobGet s.jobs name with
  | none => rfl
  | some job => simpa using jobSet_keys_of_get_some (v := { job with running := false }) h

/-- C10: `stopJob` never removes a registry entry: after any sequence of
`stopJob` calls the registry holds the same names, and `getStatus` reports
`running: true` for exactly the names in the registry, regardless of whether
the underlying tasks were stopped. -/
theorem stopJob_preserves_registry (s : SchedulerState) (names : List String) :
    (names.foldl stopJob s).jobs.map Prod.fst = s.jobs.map Prod.fst
    ∧ getStatus (names.foldl stopJob s) = s.jobs.map (fun p => (p.1, true)) := by
  have hkeys : ∀ (ns : List String) (st : SchedulerState),
      (ns.foldl stopJob st).jobs.map Prod.fst = st.jobs.map Prod.fst := by
    intro ns
    induction ns with
    | nil => intro st; rfl
    | cons n ns ih =>
        intro st
        rw [List.foldl_cons, ih, stopJob_keys]
  have h2 : ∀ jobs : JobMap,
      jobs.map (fun p => (p.1, true)) = (jobs.map Prod.fst).map (fun n => (n, true)) := by
    intro jobs
    rw [List.map_map]
    rfl
  refine ⟨hkeys names s, ?_⟩
  unfold getStatus
  rw [h2, h2, hkeys]
